import Mathlib

/-!
# Verification of the 8MB video compressor (`compress.py`)

Shallow embedding of the decision logic of `compress.py`: the bitrate
planner (`calculate_target_bitrate`), the scaling policy
(`get_scale_filter`), the encoder selector (`detect_encoder`), the
metadata-validation step of `get_video_info`, the convergence loop of
`compress_video`, and the exit-code classification of `main`.

Modelling conventions:
* Python `float` arithmetic is modelled exactly over `ℚ`; the values the
  claims examine are far from floor boundaries, so exact rational
  evaluation agrees with IEEE-double evaluation there.
* The external encoder (ffmpeg) is a collaborator: one encode attempt is
  modelled by an `EncodeOutcome` drawn from an arbitrary sequence of
  outcomes, and `compress_video` is a function of that sequence.
* Python `int(x)` / `math.floor(x)` on the nonnegative quantities involved
  coincide with `Int.floor` / natural division, which is how they are
  embedded.
-/

namespace Compressor

/-- `TARGET_BYTES = 8 * 1024 * 1024` from the CONFIG block. -/
def TARGET_BYTES : ℕ := 8 * 1024 * 1024

/-- `TARGET_BITS = TARGET_BYTES * 8`. -/
def TARGET_BITS : ℕ := TARGET_BYTES * 8

/-- `AUDIO_BITRATE = 96_000`. -/
def AUDIO_BITRATE : ℕ := 96000

/-- `MIN_VIDEO_BITRATE = 80_000`. -/
def MIN_VIDEO_BITRATE : ℕ := 80000

/-- `SAFETY_MARGIN = 0.03`, modelled exactly as the rational `3/100`. -/
def SAFETY_MARGIN : ℚ := 3 / 100

/-- `MAX_ATTEMPTS = 3`. -/
def MAX_ATTEMPTS : ℕ := 3

/-- `ENCODER_PRIORITY`: the priority-ordered (codec, preset) list. -/
def ENCODER_PRIORITY : List (String × String) :=
  [("hevc_nvenc", "p5"), ("hevc_qsv", "medium"), ("libx265", "veryfast")]

/-- The `VideoInfo` container class: duration (a Python float, modelled as
`ℚ`), audio presence, dimensions and source bitrate (Python ints). -/
structure VideoInfo where
  duration : ℚ
  has_audio : Bool
  width : ℤ
  height : ℤ
  bitrate : ℤ
deriving DecidableEq

/-- The duration-selection and validation logic of `get_video_info`:
the stream duration is preferred, the container (format) duration is the
fallback, and `None` is returned when the duration is absent or
non-positive (`if not duration or duration <= 0: return None`).  The
JSON-parsing and subprocess plumbing is abstracted into the `Option`
inputs; any exception in it likewise yields `none`. -/
def get_video_info (streamDur fmtDur : Option ℚ) (width height bitrate : ℤ)
    (has_audio : Bool) : Option VideoInfo :=
  let duration : Option ℚ :=
    match streamDur with
    | some d => some d
    | none => fmtDur
  match duration with
  | none => none
  | some d => if d ≤ 0 then none else some ⟨d, has_audio, width, height, bitrate⟩

/-- `True` iff `pat` occurs at the head of `s` (helper for the Python
substring test `codec in available`). -/
def strMatchAt : List Char → List Char → Bool
  | [], _ => true
  | _ :: _, [] => false
  | c :: cs, d :: ds => (c == d) && strMatchAt cs ds

/-- `True` iff `pat` occurs anywhere in `s` (the Python substring test
`codec in available`). -/
def strFindSub : List Char → List Char → Bool
  | pat, [] => strMatchAt pat []
  | pat, d :: ds => strMatchAt pat (d :: ds) || strFindSub pat ds

/-- The scan of `ENCODER_PRIORITY` inside `detect_encoder`: the first
`(codec, preset)` whose codec name occurs in the capability output. -/
def findEncoder : List (String × String) → String → Option (String × String)
  | [], _ => none
  | (codec, preset) :: rest, available =>
    if strFindSub codec.toList available.toList then some (codec, preset)
    else findEncoder rest available

/-- `detect_encoder`: the capability query is modelled as
`Option String` (`none` when the query raises).  On failure or when no
prioritized codec name occurs in the output, the function falls back to
`("libx265", "veryfast")`. -/
def detect_encoder (query : Option String) : String × String :=
  match query with
  | none => ("libx265", "veryfast")
  | some available => (findEncoder ENCODER_PRIORITY available).getD ("libx265", "veryfast")

/-- `calculate_target_bitrate`: reserve audio bits, apply the safety
margin, divide by duration, floor to the nearest 1000 and clamp to
`MIN_VIDEO_BITRATE`.  `math.floor` is `Int.floor` on the exact rational. -/
def calculate_target_bitrate (info : VideoInfo) : ℤ :=
  let audio_bits : ℚ := if info.has_audio then (AUDIO_BITRATE : ℚ) * info.duration else 0
  let available_bits : ℚ := (TARGET_BITS : ℚ) * (1 - SAFETY_MARGIN) - audio_bits
  let video_bitrate : ℚ := available_bits / info.duration
  max (MIN_VIDEO_BITRATE : ℤ) (⌊video_bitrate / 1000⌋ * 1000)

/-- `get_scale_filter`: within 1920×1080 only even-parity rounding is
requested; otherwise a downscale-to-fit filter is requested. -/
def get_scale_filter (info : VideoInfo) : String :=
  if info.width ≤ 1920 ∧ info.height ≤ 1080 then
    "scale=trunc(iw/2)*2:trunc(ih/2)*2"
  else
    "scale=1920:1080:force_original_aspect_ratio=decrease:force_divisible_by=2"

/-- Modelled from the spec: the semantics of the two ffmpeg scale-filter
expressions produced by `get_scale_filter` (ffmpeg itself is an external
collaborator, not in the repository).  The parity filter truncates each
dimension down to an even value; the fit filter scales both dimensions by
`min (1920/w) (1080/h)` (aspect-ratio preserving, decreasing from the
1920×1080 reference) and rounds each result down to an even value.
Dimensions are assumed positive; on them integer `/` is truncation, as in
the ffmpeg expression `trunc(iw/2)*2`. -/
def applyScaleFilter (filt : String) (w h : ℤ) : ℤ × ℤ :=
  if filt = "scale=trunc(iw/2)*2:trunc(ih/2)*2" then
    (2 * (w / 2), 2 * (h / 2))
  else
    (2 * (⌊(w : ℚ) * min (1920 / (w : ℚ)) (1080 / (h : ℚ))⌋ / 2),
     2 * (⌊(h : ℚ) * min (1920 / (w : ℚ)) (1080 / (h : ℚ))⌋ / 2))

/-- What one external encode attempt can produce: a failed encode process,
a missing output file, or an output file of a given byte size. -/
inductive EncodeOutcome where
  | encodeFail : EncodeOutcome
  | outputMissing : EncodeOutcome
  | output : ℕ → EncodeOutcome
deriving DecidableEq

/-- The distinct terminal outcomes of `compress_video`, distinguished by
the notification each return path emits. -/
inductive CompressResult where
  | success : ℕ → CompressResult
  | probeError : CompressResult
  | encodeError : CompressResult
  | outputMissingErr : CompressResult
  | noProgress : CompressResult
  | budgetExceeded : CompressResult
deriving DecidableEq

/-- `True` exactly on the `success` outcome (the `True` return value of
`compress_video`). -/
def CompressResult.isSuccess : CompressResult → Bool
  | .success _ => true
  | _ => false

/-- The corrective bitrate update of the loop body:
`max(MIN_VIDEO_BITRATE, int(video_bitrate * (TARGET_BYTES / out_size) * 0.95))`.
Exact over the rationals, this truncation of a nonnegative value is the
natural division below. -/
def correctedBitrate (video_bitrate out_size : ℕ) : ℕ :=
  max MIN_VIDEO_BITRATE (video_bitrate * TARGET_BYTES * 95 / (out_size * 100))

/-- The `for attempt in range(1, MAX_ATTEMPTS + 1)` loop of
`compress_video`, with the encode outcomes supplied externally, indexed by
attempt number.  Returns the terminal result together with the number of
encode invocations performed.  `fuel` is the number of loop iterations
still permitted; the loop is entered with `fuel = MAX_ATTEMPTS` and
`attempt = 1`. -/
def loopGo (outcomes : ℕ → EncodeOutcome) : ℕ → ℕ → ℕ → CompressResult × ℕ
  | 0, _, _ => (.budgetExceeded, 0)
  | fuel + 1, attempt, video_bitrate =>
    match outcomes attempt with
    | .encodeFail => (.encodeError, 1)
    | .outputMissing => (.outputMissingErr, 1)
    | .output out_size =>
      if out_size ≤ TARGET_BYTES then (.success out_size, 1)
      else if attempt < MAX_ATTEMPTS then
        if video_bitrate ≤ correctedBitrate video_bitrate out_size then (.noProgress, 1)
        else
          ((loopGo outcomes fuel (attempt + 1) (correctedBitrate video_bitrate out_size)).1,
           (loopGo outcomes fuel (attempt + 1) (correctedBitrate video_bitrate out_size)).2 + 1)
      else (.budgetExceeded, 1)

/-- The successive values held by the `video_bitrate` variable across the
iterations the loop actually performs (the bitrate trace). -/
def bitrateTrace (outcomes : ℕ → EncodeOutcome) : ℕ → ℕ → ℕ → List ℕ
  | 0, _, _ => []
  | fuel + 1, attempt, video_bitrate =>
    video_bitrate ::
      (match outcomes attempt with
       | .encodeFail => []
       | .outputMissing => []
       | .output out_size =>
         if out_size ≤ TARGET_BYTES then []
         else if attempt < MAX_ATTEMPTS then
           if video_bitrate ≤ correctedBitrate video_bitrate out_size then []
           else bitrateTrace outcomes fuel (attempt + 1) (correctedBitrate video_bitrate out_size)
         else [])

/-- `compress_video`: probe (a `none` probe is the `ProbeError` early
return, before any planning or encoding), then run the convergence loop
from the planner's initial bitrate. -/
def compress_video (probe : Option VideoInfo) (outcomes : ℕ → EncodeOutcome) :
    CompressResult × ℕ :=
  match probe with
  | none => (.probeError, 0)
  | some info => loopGo outcomes MAX_ATTEMPTS 1 (calculate_target_bitrate info).toNat

/-- `main`: the argument check, the input-file check, the tool-location
checks and the exit-code selection, in source order.  `argc` is
`len(sys.argv)`; the two `locate_tool` results are `Option String`. -/
def runMain (argc : ℕ) (isFile : Bool) (ffmpeg ffprobe : Option String)
    (probe : Option VideoInfo) (outcomes : ℕ → EncodeOutcome) : ℕ :=
  if argc < 2 then 0
  else if isFile = false then 1
  else if ffmpeg.isNone || ffprobe.isNone then 2
  else if ((compress_video probe outcomes).1).isSuccess then 0 else 3

end Compressor

namespace Compressor

theorem loopGo_count_le (outcomes : ℕ → EncodeOutcome) :
    ∀ (fuel attempt b : ℕ), (loopGo outcomes fuel attempt b).2 ≤ fuel := by
  intro fuel
  induction fuel with
  | zero => intro a b; simp [loopGo]
  | succ n ih =>
    intro a b
    rw [loopGo]
    cases h : outcomes a with
    | encodeFail => simp
    | outputMissing => simp
    | output s =>
      by_cases h1 : s ≤ TARGET_BYTES
      · simp [h1]
      · by_cases h2 : a < MAX_ATTEMPTS
        · by_cases h3 : b ≤ correctedBitrate b s
          · simp [h1, h2, h3]
          · simp only [if_neg h1, if_pos h2, if_neg h3]
            exact Nat.succ_le_succ (ih (a + 1) _)
        · simp [h1, h2]

/-- C2: for every probe result and every sequence of external encode
outcomes, `compress_video` performs at most `MAX_ATTEMPTS = 3` encode
invocations; the loop always terminates within that bound. -/
theorem c2_attempt_bound (probe : Option VideoInfo) (outcomes : ℕ → EncodeOutcome) :
    (compress_video probe outcomes).2 ≤ MAX_ATTEMPTS ∧ MAX_ATTEMPTS = 3 := by
  refine ⟨?_, rfl⟩
  cases probe with
  | none => simp [compress_video]
  | some info => exact loopGo_count_le outcomes MAX_ATTEMPTS 1 _

theorem calculate_target_bitrate_ge_min (info : VideoInfo) :
    (MIN_VIDEO_BITRATE : ℤ) ≤ calculate_target_bitrate info :=
  le_max_left _ _

theorem init_bitrate_toNat_ge (info : VideoInfo) :
    MIN_VIDEO_BITRATE ≤ (calculate_target_bitrate info).toNat := by
  have h := calculate_target_bitrate_ge_min info
  have h8 : MIN_VIDEO_BITRATE = 80000 := rfl
  omega

theorem bitrateTrace_min (outcomes : ℕ → EncodeOutcome) :
    ∀ (fuel attempt b0 : ℕ), MIN_VIDEO_BITRATE ≤ b0 →
      ∀ b ∈ bitrateTrace outcomes fuel attempt b0, MIN_VIDEO_BITRATE ≤ b := by
  intro fuel
  induction fuel with
  | zero => intro a b0 h0 b hb; simp [bitrateTrace] at hb
  | succ n ih =>
    intro a b0 h0 b hb
    rw [bitrateTrace] at hb
    rcases List.mem_cons.mp hb with rfl | hb
    · exact h0
    · cases h : outcomes a with
      | encodeFail => rw [h] at hb; simp at hb
      | outputMissing => rw [h] at hb; simp at hb
      | output s =>
        rw [h] at hb
        by_cases h1 : s ≤ TARGET_BYTES
        · simp [h1] at hb
        · by_cases h2 : a < MAX_ATTEMPTS
          · by_cases h3 : b0 ≤ correctedBitrate b0 s
            · simp [h1, h2, h3] at hb
            · simp only [if_neg h1, if_pos h2, if_neg h3] at hb
              exact ih (a + 1) _ (le_max_left _ _) b hb
          · simp [h1, h2] at hb

/-- C1: across all attempts of `compress_video` the current video bitrate
never falls below `MIN_VIDEO_BITRATE`, and after an over-budget attempt a
corrective update that is not strictly below the current bitrate makes the
loop terminate with the `noProgress` outcome instead of retrying. -/
theorem c1_loop_invariant (outcomes : ℕ → EncodeOutcome) (info : VideoInfo) :
    (∀ b ∈ bitrateTrace outcomes MAX_ATTEMPTS 1 (calculate_target_bitrate info).toNat,
        MIN_VIDEO_BITRATE ≤ b) ∧
    (∀ (f attempt bitrate out_size : ℕ),
        outcomes attempt = EncodeOutcome.output out_size →
        TARGET_BYTES < out_size → attempt < MAX_ATTEMPTS →
        bitrate ≤ correctedBitrate bitrate out_size →
        loopGo outcomes (f + 1) attempt bitrate = (CompressResult.noProgress, 1)) := by
  constructor
  · exact bitrateTrace_min outcomes MAX_ATTEMPTS 1 _ (init_bitrate_toNat_ge info)
  · intro f a bt s h1 h2 h3 h4
    rw [loopGo, h1]
    simp [not_le.mpr h2, h3, h4]

/-- Witness for C1 at duration 60 with audio and a constant 10 MiB
over-budget outcome, and the no-progress step at the minimum bitrate. -/
theorem c1_loop_invariant_witness :
    MIN_VIDEO_BITRATE ≤ (calculate_target_bitrate ⟨60, true, 1920, 1080, 0⟩).toNat ∧
    loopGo (fun _ => EncodeOutcome.output 10485760) 1 1 80000 = (CompressResult.noProgress, 1) := by
  constructor
  · exact (c1_loop_invariant (fun _ => EncodeOutcome.output 10485760) ⟨60, true, 1920, 1080, 0⟩).1
      _ (List.mem_cons_self _ _)
  · exact (c1_loop_invariant (fun _ => EncodeOutcome.output 10485760) ⟨60, true, 1920, 1080, 0⟩).2
      0 1 80000 10485760 rfl (by decide) (by decide) (by decide)

end Compressor

namespace Compressor

theorem correctedBitrate_ten_mib (b : ℕ) :
    b * TARGET_BYTES * 95 / (10485760 * 100) = b * 19 / 25 := by
  unfold TARGET_BYTES
  omega

/-- C5 counterexample: at the current bitrate 80000 (the minimum), a
10 MiB first attempt against the 8 MiB target does not set the bitrate to
`floor(80000 * (8/10) * 0.95) = 60800` and does not proceed to attempt 2:
the candidate is clamped to `MIN_VIDEO_BITRATE = 80000`, which is not a
strict decrease, and the loop terminates with `noProgress` after a single
encode. -/
theorem c5_corrective_step_cex :
    correctedBitrate 80000 10485760 = 80000 ∧
    ⌊(80000 : ℚ) * (8 / 10) * (95 / 100)⌋ = 60800 ∧
    (80000 : ℕ) ≠ 60800 ∧
    loopGo (fun _ => EncodeOutcome.output 10485760) MAX_ATTEMPTS 1 80000 =
      (CompressResult.noProgress, 1) :=
  ⟨by decide, by norm_num, by decide, by decide⟩

/-- C5 (amended): when the first attempt produces a 10 MiB output against
the 8 MiB target and the unclamped candidate
`floor(currentBitrate * (8/10) * 0.95)` is at least `MIN_VIDEO_BITRATE`,
the corrective step adopts exactly that candidate, it is strictly less
than the current bitrate, and the loop proceeds to attempt 2; otherwise
the candidate is clamped up to `MIN_VIDEO_BITRATE`. -/
theorem c5_corrective_step (b : ℕ) (outcomes : ℕ → EncodeOutcome)
    (ho : outcomes 1 = EncodeOutcome.output 10485760)
    (hmin : MIN_VIDEO_BITRATE ≤ b * TARGET_BYTES * 95 / (10485760 * 100)) :
    correctedBitrate b 10485760 = b * TARGET_BYTES * 95 / (10485760 * 100) ∧
    ((b * TARGET_BYTES * 95 / (10485760 * 100) : ℕ) : ℤ) =
      ⌊(b : ℚ) * (8 / 10) * (95 / 100)⌋ ∧
    b * TARGET_BYTES * 95 / (10485760 * 100) < b ∧
    loopGo outcomes MAX_ATTEMPTS 1 b =
      ((loopGo outcomes (MAX_ATTEMPTS - 1) 2 (b * TARGET_BYTES * 95 / (10485760 * 100))).1,
       (loopGo outcomes (MAX_ATTEMPTS - 1) 2 (b * TARGET_BYTES * 95 / (10485760 * 100))).2 + 1) := by
  have hq := correctedBitrate_ten_mib b
  have hcb : correctedBitrate b 10485760 = b * TARGET_BYTES * 95 / (10485760 * 100) :=
    Nat.max_eq_right hmin
  have hlt : b * TARGET_BYTES * 95 / (10485760 * 100) < b := by
    rw [hq] at hmin ⊢
    have h8 : MIN_VIDEO_BITRATE = 80000 := rfl
    omega
  refine ⟨hcb, ?_, hlt, ?_⟩
  · rw [hq]
    have h : (b : ℚ) * (8 / 10) * (95 / 100) = ((b * 19 : ℕ) : ℚ) / ((25 : ℕ) : ℚ) := by
      push_cast; ring
    rw [h, Rat.floor_natCast_div_natCast]
    push_cast
    rfl
  · have h31 : MAX_ATTEMPTS = 2 + 1 := rfl
    rw [h31, loopGo, ho]
    have h1 : ¬(10485760 ≤ TARGET_BYTES) := by decide
    have h2 : 1 < MAX_ATTEMPTS := by decide
    have h3 : ¬(b ≤ correctedBitrate b 10485760) := by rw [hcb]; omega
    simp only [if_neg h1, if_pos h2, if_neg h3, hcb]
    rw [if_neg (by rw [← hcb]; exact h3)]

/-- Witness for C5 at current bitrate 988000: the unclamped candidate is
750880 ≥ `MIN_VIDEO_BITRATE`, so it is adopted and is a strict decrease. -/
theorem c5_corrective_step_witness :
    988000 * TARGET_BYTES * 95 / (10485760 * 100) < 988000 ∧
    correctedBitrate 988000 10485760 = 988000 * TARGET_BYTES * 95 / (10485760 * 100) := by
  refine ⟨(c5_corrective_step 988000 (fun _ => EncodeOutcome.output 10485760) rfl
      (by decide)).2.2.1,
    (c5_corrective_step 988000 (fun _ => EncodeOutcome.output 10485760) rfl
      (by decide)).1⟩

end Compressor

namespace Compressor

theorem calc_bitrate_info60 :
    calculate_target_bitrate ⟨60, true, 1920, 1080, 0⟩ = 988000 := by
  norm_num [calculate_target_bitrate, TARGET_BITS, TARGET_BYTES, AUDIO_BITRATE,
    SAFETY_MARGIN, MIN_VIDEO_BITRATE]

/-- C4 counterexample: for duration 60 s with audio the planner does not
return 989000. -/
theorem c4_scenario_60s_cex :
    calculate_target_bitrate ⟨60, true, 1920, 1080, 0⟩ ≠ 989000 := by
  rw [calc_bitrate_info60]; decide

/-- C4 (amended): for duration 60 s with audio, `TARGET_BYTES = 8 MiB`,
`AUDIO_BITRATE = 96000` and a 3% safety margin, the planner returns
exactly 988000 bits/s: audioBits = 5760000, availableBits =
8*1024*1024*8*0.97 − 5760000 = 59335598.08, and
floor(59335598.08/60/1000)*1000 = 988000, which is at least
`MIN_VIDEO_BITRATE`. -/
theorem c4_scenario_60s :
    calculate_target_bitrate ⟨60, true, 1920, 1080, 0⟩ = 988000 ∧
    (MIN_VIDEO_BITRATE : ℤ) ≤ calculate_target_bitrate ⟨60, true, 1920, 1080, 0⟩ := by
  refine ⟨calc_bitrate_info60, ?_⟩
  rw [calc_bitrate_info60]; decide

/-- C3 counterexample: for duration 1000 s (no audio) the planner clamps
up to `MIN_VIDEO_BITRATE = 80000`, which is not strictly less than
`TARGET_BITS / d = 67108.864`. -/
theorem c3_planner_range_cex :
    calculate_target_bitrate ⟨1000, false, 1920, 1080, 0⟩ = 80000 ∧
    ¬(((calculate_target_bitrate ⟨1000, false, 1920, 1080, 0⟩ : ℤ) : ℚ) <
        (TARGET_BITS : ℚ) / 1000) := by
  have h : calculate_target_bitrate ⟨1000, false, 1920, 1080, 0⟩ = 80000 := by
    norm_num [calculate_target_bitrate, TARGET_BITS, TARGET_BYTES, AUDIO_BITRATE,
      SAFETY_MARGIN, MIN_VIDEO_BITRATE]
  refine ⟨h, ?_⟩
  rw [h]
  norm_num [TARGET_BITS, TARGET_BYTES]

/-- C3 (amended): for every duration d > 0 and every audio flag, the
planner returns a value ≥ `MIN_VIDEO_BITRATE`, and that value is either
exactly `MIN_VIDEO_BITRATE` (the clamped case) or strictly less than
`TARGET_BITS / d`. -/
theorem c3_planner_range (info : VideoInfo) (hd : 0 < info.duration) :
    (MIN_VIDEO_BITRATE : ℤ) ≤ calculate_target_bitrate info ∧
    (calculate_target_bitrate info = (MIN_VIDEO_BITRATE : ℤ) ∨
      ((calculate_target_bitrate info : ℤ) : ℚ) < (TARGET_BITS : ℚ) / info.duration) := by
  refine ⟨le_max_left _ _, ?_⟩
  simp only [calculate_target_bitrate]
  set aud : ℚ := if info.has_audio then (AUDIO_BITRATE : ℚ) * info.duration else 0 with haud_def
  set x : ℚ := ((TARGET_BITS : ℚ) * (1 - SAFETY_MARGIN) - aud) / info.duration with hx_def
  rcases le_or_lt (⌊x / 1000⌋ * 1000) (MIN_VIDEO_BITRATE : ℤ) with h | h
  · left
    exact max_eq_left h
  · right
    rw [max_eq_right h.le]
    have haud0 : 0 ≤ aud := by
      rw [haud_def]
      split
      · positivity
      · exact le_refl 0
    have htb : (0 : ℚ) < (TARGET_BITS : ℚ) := by norm_num [TARGET_BITS, TARGET_BYTES]
    have hnum : (TARGET_BITS : ℚ) * (1 - SAFETY_MARGIN) - aud < (TARGET_BITS : ℚ) := by
      rw [SAFETY_MARGIN]
      nlinarith
    have hx_lt : x < (TARGET_BITS : ℚ) / info.duration := by
      rw [hx_def]
      gcongr
    have hfl : ((⌊x / 1000⌋ * 1000 : ℤ) : ℚ) ≤ x := by
      push_cast
      have h1 := Int.floor_le (x / 1000)
      linarith
    linarith

/-- Witness for C3 (amended) at duration 60 with audio. -/
theorem c3_planner_range_witness :
    (MIN_VIDEO_BITRATE : ℤ) ≤ calculate_target_bitrate ⟨60, true, 1920, 1080, 0⟩ ∧
    (calculate_target_bitrate ⟨60, true, 1920, 1080, 0⟩ = (MIN_VIDEO_BITRATE : ℤ) ∨
      ((calculate_target_bitrate ⟨60, true, 1920, 1080, 0⟩ : ℤ) : ℚ) <
        (TARGET_BITS : ℚ) / 60) :=
  c3_planner_range ⟨60, true, 1920, 1080, 0⟩ (by norm_num)

/-- C9: for every `VideoInfo` with positive duration the planner's result
is an exact integer multiple of 1000. -/
theorem c9_bitrate_granularity (info : VideoInfo) (_hd : 0 < info.duration) :
    (1000 : ℤ) ∣ calculate_target_bitrate info := by
  simp only [calculate_target_bitrate]
  rcases le_total
      (⌊(((TARGET_BITS : ℚ) * (1 - SAFETY_MARGIN) -
          if info.has_audio then (AUDIO_BITRATE : ℚ) * info.duration else 0) /
            info.duration) / 1000⌋ * 1000) (MIN_VIDEO_BITRATE : ℤ) with h | h
  · rw [max_eq_left h]
    exact ⟨80, by norm_num [MIN_VIDEO_BITRATE]⟩
  · rw [max_eq_right h]
    exact dvd_mul_left 1000 _

/-- Witness for C9 at duration 60 with audio. -/
theorem c9_bitrate_granularity_witness :
    (1000 : ℤ) ∣ calculate_target_bitrate ⟨60, true, 1920, 1080, 0⟩ :=
  c9_bitrate_granularity ⟨60, true, 1920, 1080, 0⟩ (by norm_num)

end Compressor

namespace Compressor

theorem findEncoder_mem :
    ∀ (l : List (String × String)) (s : String) (cp : String × String),
      findEncoder l s = some cp → cp ∈ l := by
  intro l
  induction l with
  | nil => intro s cp h; simp [findEncoder] at h
  | cons hd tl ih =>
    intro s cp h
    obtain ⟨c, p⟩ := hd
    rw [findEncoder] at h
    by_cases hc : strFindSub c.toList s.toList = true
    · rw [if_pos hc] at h
      exact (Option.some.inj h) ▸ List.mem_cons_self _ _
    · rw [if_neg hc] at h
      exact List.mem_cons_of_mem _ (ih s cp h)

theorem findEncoder_all_miss :
    ∀ (l : List (String × String)) (s : String),
      (∀ cp ∈ l, strFindSub (cp.1).toList s.toList = false) →
      findEncoder l s = none := by
  intro l
  induction l with
  | nil => intro s _; rfl
  | cons hd tl ih =>
    intro s hall
    obtain ⟨c, p⟩ := hd
    have hc : strFindSub c.data s.data = false := hall (c, p) (List.mem_cons_self _ _)
    rw [findEncoder, if_neg (by simp [hc])]
    exact ih s fun cp hcp => hall cp (List.mem_cons_of_mem _ hcp)

/-- C8: `detect_encoder` always returns a pair from the priority list
(the fallback pair is the last element); when the capability query fails
(`none`) or no prioritized codec name occurs in the query output, it
returns the software fallback `("libx265", "veryfast")`. -/
theorem c8_encoder_fallback (query : Option String) :
    detect_encoder query ∈ ENCODER_PRIORITY ∧
    (query = none → detect_encoder query = ("libx265", "veryfast")) ∧
    (∀ s, query = some s →
      (∀ cp ∈ ENCODER_PRIORITY, strFindSub (cp.1).toList s.toList = false) →
      detect_encoder query = ("libx265", "veryfast")) := by
  refine ⟨?_, ?_, ?_⟩
  · cases query with
    | none => simp [detect_encoder, ENCODER_PRIORITY]
    | some s =>
      show (findEncoder ENCODER_PRIORITY s).getD ("libx265", "veryfast") ∈ ENCODER_PRIORITY
      cases h : findEncoder ENCODER_PRIORITY s with
      | none => simp [ENCODER_PRIORITY]
      | some cp => simpa using findEncoder_mem _ _ _ h
  · intro h; subst h; rfl
  · intro s h hall
    subst h
    show (findEncoder ENCODER_PRIORITY s).getD ("libx265", "veryfast") = ("libx265", "veryfast")
    rw [findEncoder_all_miss _ _ hall]
    rfl

/-- Witness for C8: a capability output naming none of the prioritized
codecs yields the software fallback, which is in the priority list. -/
theorem c8_encoder_fallback_witness :
    detect_encoder (some "x264") = ("libx265", "veryfast") ∧
    detect_encoder (some "x264") ∈ ENCODER_PRIORITY :=
  ⟨(c8_encoder_fallback (some "x264")).2.2 "x264" rfl (by decide),
   (c8_encoder_fallback (some "x264")).1⟩

/-- C10: every `VideoInfo` returned by `get_video_info` has strictly
positive duration (absent or non-positive probed durations yield `none`),
and on a failed probe `compress_video` returns `probeError` with zero
encode invocations, before invoking the planner; hence the division by
`info.duration` inside `calculate_target_bitrate` is never a division by
zero when reached through `compress_video`. -/
theorem c10_no_div_by_zero :
    (∀ (streamDur fmtDur : Option ℚ) (w h br : ℤ) (ha : Bool) (info : VideoInfo),
        get_video_info streamDur fmtDur w h br ha = some info → 0 < info.duration) ∧
    (∀ outcomes : ℕ → EncodeOutcome,
        compress_video none outcomes = (CompressResult.probeError, 0)) := by
  constructor
  · intro sd fd w h br ha info hinfo
    unfold get_video_info at hinfo
    rcases sd with _ | d
    · rcases fd with _ | d
      · simp at hinfo
      · simp only [] at hinfo
        by_cases hd : d ≤ 0
        · rw [if_pos hd] at hinfo; exact absurd hinfo (by simp)
        · rw [if_neg hd] at hinfo
          rw [← Option.some.inj hinfo]
          exact lt_of_not_le hd
    · simp only [] at hinfo
      by_cases hd : d ≤ 0
      · rw [if_pos hd] at hinfo; exact absurd hinfo (by simp)
      · rw [if_neg hd] at hinfo
        rw [← Option.some.inj hinfo]
        exact lt_of_not_le hd
  · intro outcomes; rfl

/-- Witness for C10: a probe reporting stream duration 60 yields a
`VideoInfo` with positive duration. -/
theorem c10_no_div_by_zero_witness :
    0 < (VideoInfo.mk 60 true 1920 1080 0).duration :=
  c10_no_div_by_zero.1 (some 60) none 1920 1080 0 true _
    (by norm_num [get_video_info])

end Compressor

namespace Compressor

/-- C6: the scaling policy never increases either dimension; within
1920×1080 the chosen filter only truncates each dimension down to the
nearest even value without resizing; otherwise the chosen filter fits the
source within 1920×1080 with both result dimensions even. -/
theorem c6_scaling_policy (info : VideoInfo) (hw : 0 < info.width) (hh : 0 < info.height) :
    ((applyScaleFilter (get_scale_filter info) info.width info.height).1 ≤ info.width ∧
     (applyScaleFilter (get_scale_filter info) info.width info.height).2 ≤ info.height) ∧
    (info.width ≤ 1920 ∧ info.height ≤ 1080 →
      applyScaleFilter (get_scale_filter info) info.width info.height =
        (2 * (info.width / 2), 2 * (info.height / 2))) ∧
    (¬(info.width ≤ 1920 ∧ info.height ≤ 1080) →
      (applyScaleFilter (get_scale_filter info) info.width info.height).1 ≤ 1920 ∧
      (applyScaleFilter (get_scale_filter info) info.width info.height).2 ≤ 1080 ∧
      2 ∣ (applyScaleFilter (get_scale_filter info) info.width info.height).1 ∧
      2 ∣ (applyScaleFilter (get_scale_filter info) info.width info.height).2) := by
  set w : ℤ := info.width with hw_def
  set h : ℤ := info.height with hh_def
  by_cases hcase : w ≤ 1920 ∧ h ≤ 1080
  · rw [get_scale_filter, if_pos hcase]
    rw [applyScaleFilter, if_pos rfl]
    refine ⟨⟨by omega, by omega⟩, fun _ => rfl, fun hc => absurd hcase hc⟩
  · rw [get_scale_filter, if_neg hcase]
    rw [applyScaleFilter, if_neg (by decide)]
    have hw0 : (0 : ℚ) < (w : ℚ) := by exact_mod_cast hw
    have hh0 : (0 : ℚ) < (h : ℚ) := by exact_mod_cast hh
    set s : ℚ := min (1920 / (w : ℚ)) (1080 / (h : ℚ)) with hs_def
    have hs_pos : 0 < s := lt_min (by positivity) (by positivity)
    have hs_le_one : s ≤ 1 := by
      push_neg at hcase
      rcases lt_or_le 1920 w with hbig | hsmall
      · refine le_trans (min_le_left _ _) ?_
        rw [div_le_one hw0]
        exact_mod_cast hbig.le
      · refine le_trans (min_le_right _ _) ?_
        rw [div_le_one hh0]
        exact_mod_cast (hcase hsmall).le
    have hws_w : (w : ℚ) * s ≤ (w : ℚ) := by nlinarith
    have hhs_h : (h : ℚ) * s ≤ (h : ℚ) := by nlinarith
    have hws_1920 : (w : ℚ) * s ≤ 1920 := by
      calc (w : ℚ) * s ≤ (w : ℚ) * (1920 / (w : ℚ)) := by
            have := min_le_left (1920 / (w : ℚ)) (1080 / (h : ℚ))
            nlinarith
        _ = 1920 := by field_simp
    have hhs_1080 : (h : ℚ) * s ≤ 1080 := by
      calc (h : ℚ) * s ≤ (h : ℚ) * (1080 / (h : ℚ)) := by
            have := min_le_right (1920 / (w : ℚ)) (1080 / (h : ℚ))
            nlinarith
        _ = 1080 := by field_simp
    have hfw_w : ⌊(w : ℚ) * s⌋ ≤ w := by
      have h1 : ⌊(w : ℚ) * s⌋ ≤ ⌊((w : ℤ) : ℚ)⌋ := Int.floor_le_floor hws_w
      simpa using h1
    have hfh_h : ⌊(h : ℚ) * s⌋ ≤ h := by
      have h1 : ⌊(h : ℚ) * s⌋ ≤ ⌊((h : ℤ) : ℚ)⌋ := Int.floor_le_floor hhs_h
      simpa using h1
    have hfw_1920 : ⌊(w : ℚ) * s⌋ ≤ 1920 := by
      have h1 : ⌊(w : ℚ) * s⌋ ≤ ⌊(1920 : ℚ)⌋ := Int.floor_le_floor hws_1920
      simpa using h1
    have hfh_1080 : ⌊(h : ℚ) * s⌋ ≤ 1080 := by
      have h1 : ⌊(h : ℚ) * s⌋ ≤ ⌊(1080 : ℚ)⌋ := Int.floor_le_floor hhs_1080
      simpa using h1
    refine ⟨⟨by omega, by omega⟩, fun hc => absurd hc hcase, fun _ => ?_⟩
    exact ⟨by omega, by omega, ⟨_, rfl⟩, ⟨_, rfl⟩⟩

/-- Witness for C6 at the spec's example 1919×1079: only parity rounding,
giving 1918×1078, and no upscaling. -/
theorem c6_scaling_policy_witness :
    applyScaleFilter (get_scale_filter ⟨60, true, 1919, 1079, 0⟩) 1919 1079 = (1918, 1078) ∧
    (applyScaleFilter (get_scale_filter ⟨60, true, 1919, 1079, 0⟩) 1919 1079).1 ≤ 1919 :=
  ⟨(c6_scaling_policy ⟨60, true, 1919, 1079, 0⟩ (by decide) (by decide)).2.1
      ⟨by decide, by decide⟩,
   (c6_scaling_policy ⟨60, true, 1919, 1079, 0⟩ (by decide) (by decide)).1.1⟩

end Compressor

namespace Compressor

/-- C7 counterexample: with an argument given, an existing input file and
both tools present, a failed probe (`none`) makes `main` exit with code 3,
an outcome that is neither a non-convergence (`noProgress` or
`budgetExceeded`) nor an encode failure (`encodeError`); so the claimed
classification of exit code 3 is not exact. -/
theorem c7_exit_codes_cex :
    runMain 2 true (some "f") (some "p") none (fun _ => EncodeOutcome.encodeFail) = 3 ∧
    (compress_video none (fun _ => EncodeOutcome.encodeFail)).1 = CompressResult.probeError ∧
    ¬(CompressResult.probeError = CompressResult.encodeError ∨
      CompressResult.probeError = CompressResult.noProgress ∨
      CompressResult.probeError = CompressResult.budgetExceeded) :=
  ⟨rfl, rfl, by decide⟩

/-- C7 (amended): the exit code of `main` classifies the outcome exactly
as: 0 when compression succeeds or no argument is given; 1 when the input
file does not exist; 2 when a required external tool is not found; 3 when
`compress_video` fails for any reason (probe failure, encode failure,
missing output, no corrective progress, or still over budget after all
attempts). -/
theorem c7_exit_codes (argc : ℕ) (isFile : Bool) (fm fp : Option String)
    (probe : Option VideoInfo) (outcomes : ℕ → EncodeOutcome) :
    (runMain argc isFile fm fp probe outcomes = 0 ↔
      (argc < 2 ∨ (2 ≤ argc ∧ isFile = true ∧ fm.isSome = true ∧ fp.isSome = true ∧
        ((compress_video probe outcomes).1).isSuccess = true))) ∧
    (runMain argc isFile fm fp probe outcomes = 1 ↔
      (2 ≤ argc ∧ isFile = false)) ∧
    (runMain argc isFile fm fp probe outcomes = 2 ↔
      (2 ≤ argc ∧ isFile = true ∧ (fm.isNone = true ∨ fp.isNone = true))) ∧
    (runMain argc isFile fm fp probe outcomes = 3 ↔
      (2 ≤ argc ∧ isFile = true ∧ fm.isSome = true ∧ fp.isSome = true ∧
        ((compress_video probe outcomes).1).isSuccess = false)) := by
  unfold runMain
  by_cases h1 : argc < 2 <;>
    cases isFile <;>
    cases fm <;>
    cases fp <;>
    cases hs : ((compress_video probe outcomes).1).isSuccess <;>
    simp_all <;>
    simp only [if_neg (by omega : ¬argc < 2)] <;>
    simp

end Compressor
